import Mathlib

/-
Shallow embedding of `lehash.py` (atzm/llesync): a Linux AF_ALG kernel-hash
client.  The Python program resolves an algorithm name through a registry of
`Hash` subclasses, constructs a bound (and, for crc32c, keyed) AF_ALG socket,
accepts one session descriptor from it, and for each file transfers the file
bytes into the session with `os.sendfile`, rewinds the file with `os.lseek`,
and reads the digest back with a short-read-tolerant loop.

Modelling choices, all taken from the source:
- OS call results (bind, setsockopt, accept) are supplied by an `OsOracle`;
  a negative result means failure and carries an errno, mirroring the
  `_libc` return-value checks in the source.
- `os.read` on the session descriptor is an oracle `Nat → Nat → ReadResult`
  mapping (iteration index, requested byte count) to either an OS error
  (Python: `os.read` raises `OSError`) or a list of bytes.
- The unbounded Python `while` loop in `HashDescriptor.digest` is modelled
  with explicit fuel; the outcome `spinning` means the loop is still running
  after `fuel` iterations, so `spinning` for every fuel is non-termination.
- Side effects are recorded as an event trace (`Ev`), so ordering and
  resource claims become statements about traces.
-/

namespace Lehash

/-- Bytes are modelled as naturals (values of Python `bytes` elements). -/
abbrev Byte := Nat

/-- Result of one `os.read` on the session descriptor: Python raises
`OSError` (modelled as `err errno`) or returns a byte string. -/
inductive ReadResult where
  | err (errno : Nat)
  | ok (bytes : List Byte)
deriving DecidableEq, Repr

/-- Outcome of the digest read loop: finished with a buffer, propagated an
`OSError` from `os.read`, or still looping when the fuel ran out. -/
inductive LoopOutcome where
  | done (digest : List Byte)
  | raised (errno : Nat)
  | spinning
deriving DecidableEq, Repr

/-- Observable events of the program, in program order. -/
inductive Ev where
  | sockCreate
  | bindCall
  | setkeyCall (key : List Byte)
  | sockClose
  | acceptCall
  | fdClose (fd : Nat)
  | sendfileEv (n : Nat)
  | lseekEv
  | readEv (n : Nat)
  | raiseEv (errno : Nat)
  | printEv (path : String)
deriving DecidableEq, Repr

/-- State of the input file descriptor: read position and content. -/
structure FileState where
  pos : Nat
  content : List Byte
deriving DecidableEq, Repr

/-- Results the OS returns for the socket calls of one run; negative means
failure, with the paired errno (as read back via `ctypes.get_errno`). -/
structure OsOracle where
  bindRes : Int
  bindErrno : Nat
  setkeyRes : Int
  setkeyErrno : Nat
  acceptRes : Int
  acceptErrno : Nat
deriving DecidableEq, Repr

/-- One `Hash` subclass of the source: its `ALG_NAME`, its `ALG_BYTE`
(digest size in bytes), and whether its `prepare` override sets a key
(only `HashCRC32C` does). -/
structure AlgClass where
  ALG_NAME : String
  ALG_BYTE : Nat
  keyed : Bool
deriving DecidableEq, Repr

def HashCRC32C : AlgClass := ⟨"crc32c", 4, true⟩

def HashMD5 : AlgClass := ⟨"md5", 16, false⟩

def HashSHA1 : AlgClass := ⟨"sha1", 20, false⟩

def HashSHA224 : AlgClass := ⟨"sha224", 28, false⟩

def HashSHA256 : AlgClass := ⟨"sha256", 32, false⟩

/-- The subclasses of `Hash`, in definition order (what
`cls.__subclasses__()` yields). -/
def subclasses : List AlgClass :=
  [HashCRC32C, HashMD5, HashSHA1, HashSHA224, HashSHA256]

/-- `Hash.algorithm()`: the name-to-class dictionary built from the
subclass list. -/
def algorithm : List (String × AlgClass) :=
  subclasses.map (fun c => (c.ALG_NAME, c))

/-- Dictionary lookup `cls.algorithm()[name]`; `none` is Python `KeyError`. -/
def resolve (name : String) : Option AlgClass :=
  (algorithm.find? (fun p => p.1 = name)).map (fun p => p.2)

/-- The key `HashCRC32C.prepare` passes to `setsockopt`:
`b'\xff' * cls.ALG_BYTE`. -/
def prepKey (c : AlgClass) : List Byte :=
  List.replicate c.ALG_BYTE 0xff

/-- The digest read loop of `HashDescriptor.digest`:

    while size < self.digestsize:
        b = os.read(self.fileno, self.digestsize - size)
        size += len(b)
        buff += b

`fuel` bounds the number of iterations; `iter` counts iterations for the
read oracle; returns the outcome and the trace of issued reads. -/
def digestLoop (readFn : Nat → Nat → ReadResult) (digestsize : Nat) :
    Nat → Nat → Nat → List Byte → LoopOutcome × List Ev
  | 0, _, size, buff =>
      if size < digestsize then (.spinning, []) else (.done buff, [])
  | fuel + 1, iter, size, buff =>
      if size < digestsize then
        match readFn iter (digestsize - size) with
        | .err n => (.raised n, [Ev.readEv (digestsize - size)])
        | .ok b =>
            let r := digestLoop readFn digestsize fuel (iter + 1)
              (size + b.length) (buff ++ b)
            (r.1, Ev.readEv (digestsize - size) :: r.2)
      else (.done buff, [])

/-- `HashDescriptor.digest(fileno, size)`: `os.sendfile` transfers `size`
bytes from the input (advancing its position, since the offset argument is
`None`), `os.lseek(fileno, 0, SEEK_SET)` rewinds it, then the read loop
collects the digest.  Returns the loop outcome, the final state of the
input descriptor, and the event trace. -/
def digestRun (readFn : Nat → Nat → ReadResult) (digestsize : Nat)
    (f : FileState) (size : Nat) (fuel : Nat) :
    LoopOutcome × FileState × List Ev :=
  let f2 : FileState := ⟨0, f.content⟩
  let r := digestLoop readFn digestsize fuel 0 0 []
  (r.1, f2, Ev.sendfileEv size :: Ev.lseekEv :: r.2)

/-- `Hash.__init__` plus the class `prepare` hook: create the socket, bind
it (closing the socket and raising on failure), then for a keyed class run
`setsockopt(SOL_ALG, ALG_SET_KEY, b'\xff' * ALG_BYTE)` (closing the socket
and raising on failure).  Returns the event trace and the errno on error. -/
def hashInit (c : AlgClass) (os : OsOracle) : List Ev × Except Nat Unit :=
  if os.bindRes < 0 then
    ([Ev.sockCreate, Ev.bindCall, Ev.sockClose, Ev.raiseEv os.bindErrno],
     Except.error os.bindErrno)
  else if c.keyed then
    if os.setkeyRes < 0 then
      ([Ev.sockCreate, Ev.bindCall, Ev.setkeyCall (prepKey c), Ev.sockClose,
        Ev.raiseEv os.setkeyErrno], Except.error os.setkeyErrno)
    else
      ([Ev.sockCreate, Ev.bindCall, Ev.setkeyCall (prepKey c)], Except.ok ())
  else
    ([Ev.sockCreate, Ev.bindCall], Except.ok ())

/-- How `Hash.instance(name)` can fail: `KeyError` on the dictionary lookup
(classified `UnknownAlgorithm`) or an `OSError` from construction. -/
inductive InstErr where
  | unknownAlgorithm
  | osError (errno : Nat)
deriving DecidableEq, Repr

/-- `Hash.instance(name)`: `cls.algorithm()[name]()` — the dictionary is
built and indexed first (no socket operation), and only on a hit is the
class constructed. -/
def instanceRun (name : String) (os : OsOracle) :
    List Ev × Except InstErr AlgClass :=
  match resolve name with
  | none => ([], Except.error InstErr.unknownAlgorithm)
  | some c =>
      match hashInit c os with
      | (tr, Except.error n) => (tr, Except.error (InstErr.osError n))
      | (tr, Except.ok _) => (tr, Except.ok c)

/-- How the body of the `with ... .open() as desc:` block exits: normal
fall-through, a raised exception, an early exit of the caller's enclosing
scope (e.g. `break`/`return`, delivered to the generator as `GeneratorExit`),
or hung (a digest loop that never finishes, so the scope is never exited). -/
inductive BodyOutcome where
  | normal
  | raised (errno : Nat)
  | earlyExit
  | hung
deriving DecidableEq, Repr

/-- `Hash.open`, a `contextlib.contextmanager`:

    try:
        fileno = _libc.accept(...)
        if fileno < 0: raise OSError(...)
        yield HashDescriptor(fileno, self.ALG_BYTE)
    finally:
        if fileno >= 0: os.close(fileno)

The `finally` runs on every exit of the with-block except a body that never
returns; a hung body never reaches the close. -/
def withOpen (os : OsOracle) (body : Nat → List Ev × BodyOutcome) :
    List Ev × BodyOutcome :=
  if os.acceptRes < 0 then
    ([Ev.acceptCall, Ev.raiseEv os.acceptErrno], .raised os.acceptErrno)
  else
    let fd := os.acceptRes.toNat
    let b := body fd
    match b.2 with
    | .hung => (Ev.acceptCall :: b.1, .hung)
    | out => (Ev.acceptCall :: b.1 ++ [Ev.fdClose fd], out)

/-- One file of `main`'s loop: its path, the state of its descriptor, the
read oracle of its digest call, and the fuel given to the read loop. -/
structure FileJob where
  path : String
  file : FileState
  readFn : Nat → Nat → ReadResult
  fuel : Nat

/-- The `for path in args.files:` body of `main`: each file is opened,
share-locked, hashed through the one shared descriptor with
`desc.digest(fileno, os.fstat(fileno).st_size)`, and its digest printed.
A raised digest aborts the loop; a spinning digest hangs the program. -/
def fileLoop (digestsize : Nat) : List FileJob → List Ev × BodyOutcome
  | [] => ([], .normal)
  | j :: rest =>
      let r := digestRun j.readFn digestsize j.file j.file.content.length j.fuel
      match r.1 with
      | .raised n => (r.2.2 ++ [Ev.raiseEv n], .raised n)
      | .spinning => (r.2.2, .hung)
      | .done _ =>
          let k := fileLoop digestsize rest
          (r.2.2 ++ Ev.printEv j.path :: k.1, k.2)

/-- Overall outcome of `main`. -/
inductive MainOutcome where
  | ok
  | unknownAlg
  | osError (errno : Nat)
  | hung
deriving DecidableEq, Repr

/-- `main` after argument parsing: `with Hash.instance(name).open() as desc:`
followed by the per-file loop.  The session descriptor is accepted once,
before the first file, and closed once, when the with-block exits. -/
def mainRun (name : String) (os : OsOracle) (jobs : List FileJob) :
    List Ev × MainOutcome :=
  match instanceRun name os with
  | (tr, Except.error InstErr.unknownAlgorithm) => (tr, .unknownAlg)
  | (tr, Except.error (InstErr.osError n)) => (tr, .osError n)
  | (tr, Except.ok c) =>
      let b := withOpen os (fun _ => fileLoop c.ALG_BYTE jobs)
      (tr ++ b.1,
        match b.2 with
        | .normal => .ok
        | .earlyExit => .ok
        | .raised n => .osError n
        | .hung => .hung)

/-- Whether a job's digest call completes (loop reaches `done`). -/
def jobDone (digestsize : Nat) (j : FileJob) : Bool :=
  match (digestRun j.readFn digestsize j.file j.file.content.length j.fuel).1 with
  | .done _ => true
  | _ => false

/-- Recognizer for transfer events, for counting them in traces. -/
def isSendfileEv : Ev → Bool
  | Ev.sendfileEv _ => true
  | _ => false

/- Concrete witnesses: an all-success OS oracle, a read oracle that always
delivers everything requested, one that always returns end-of-stream, and
one that always errors. -/

def okOs : OsOracle := ⟨0, 0, 0, 0, 3, 0⟩

def fullRead : Nat → Nat → ReadResult := fun _ k => ReadResult.ok (List.replicate k 7)

def zeroRead : Nat → Nat → ReadResult := fun _ _ => ReadResult.ok []

def errRead : Nat → Nat → ReadResult := fun _ _ => ReadResult.err 5

/-- Delivers one byte on each of the first two reads, then errors: a read
failure that strikes only after partial accumulation. -/
def oneByteThenErr : Nat → Nat → ReadResult :=
  fun i _ => if i < 2 then ReadResult.ok [7] else ReadResult.err 5

def jobA : FileJob := ⟨"a.txt", ⟨0, [97, 98, 99]⟩, fullRead, 16⟩

def jobB : FileJob := ⟨"b.txt", ⟨0, [100, 101]⟩, fullRead, 16⟩

/- Helper lemmas about the digest read loop. -/

/-- Every event the read loop emits is a read. -/
theorem digestLoop_reads_only (readFn : Nat → Nat → ReadResult) (d : Nat) :
    ∀ fuel iter size buff e, e ∈ (digestLoop readFn d fuel iter size buff).2 →
      ∃ n, e = Ev.readEv n := by
  intro fuel
  induction fuel with
  | zero =>
      intro iter size buff e he
      simp only [digestLoop] at he
      split at he <;> simp at he
  | succ fuel ih =>
      intro iter size buff e he
      simp only [digestLoop] at he
      split at he
      · split at he
        · simp only [List.mem_singleton] at he
          exact ⟨_, he⟩
        · simp only [List.mem_cons] at he
          rcases he with he | he
          · exact ⟨_, he⟩
          · exact ih _ _ _ e he
      · simp at he

/-- If every read returns between 1 and the requested number of bytes, the
loop finishes with a buffer of exactly `d` bytes, within the given fuel
whenever `d - size ≤ fuel`, issuing at most `fuel` reads. -/
theorem digestLoop_good (readFn : Nat → Nat → ReadResult) (d : Nat)
    (hgood : ∀ i k, 0 < k →
      ∃ b, readFn i k = ReadResult.ok b ∧ 1 ≤ b.length ∧ b.length ≤ k) :
    ∀ fuel iter size buff, buff.length = size → size ≤ d → d - size ≤ fuel →
      ∃ r tr, digestLoop readFn d fuel iter size buff = (LoopOutcome.done r, tr)
        ∧ r.length = d ∧ tr.length ≤ fuel := by
  intro fuel
  induction fuel with
  | zero =>
      intro iter size buff hlen hle hfuel
      have hsd : size = d := by omega
      refine ⟨buff, [], ?_, by omega, by simp⟩
      simp [digestLoop, hsd]
  | succ fuel ih =>
      intro iter size buff hlen hle hfuel
      by_cases hlt : size < d
      · obtain ⟨b, hb, hb1, hb2⟩ := hgood iter (d - size) (by omega)
        obtain ⟨r, tr, heq, hrlen, htr⟩ := ih (iter + 1) (size + b.length)
          (buff ++ b) (by simp [hlen]) (by omega) (by omega)
        refine ⟨r, Ev.readEv (d - size) :: tr, ?_, hrlen, by simpa using htr⟩
        simp only [digestLoop, if_pos hlt, hb, heq]
      · have hsd : size = d := by omega
        refine ⟨buff, [], ?_, by omega, by simp⟩
        simp [digestLoop, hlt]

/-- If every read returns zero bytes, the loop never finishes: for every
fuel it is still spinning (the loop makes no progress). -/
theorem digestLoop_zero_spins (zr : Nat → Nat → ReadResult)
    (hz : ∀ i k, zr i k = ReadResult.ok []) (d : Nat) (hd : 0 < d) :
    ∀ fuel iter, (digestLoop zr d fuel iter 0 []).1 = LoopOutcome.spinning := by
  intro fuel
  induction fuel with
  | zero => intro iter; simp [digestLoop, hd]
  | succ fuel ih =>
      intro iter
      simp only [digestLoop, if_pos hd, hz]
      simpa using ih (iter + 1)

/-- If the reads before iteration `t` each deliver one byte, the read at
iteration `t` errors, and fewer than `digestsize` bytes are accumulated by
then, the loop runs through the successful reads, reaches the erroring
one, and propagates its error. -/
theorem digestLoop_err_reached (readFn : Nat → Nat → ReadResult) (d n : Nat) :
    ∀ t fuel iter size buff,
      (∀ i k, i < t → 0 < k →
        ∃ b, readFn (iter + i) k = ReadResult.ok b ∧ b.length = 1) →
      (∀ k, 0 < k → readFn (iter + t) k = ReadResult.err n) →
      size + t < d → t < fuel →
      (digestLoop readFn d fuel iter size buff).1 = LoopOutcome.raised n := by
  intro t
  induction t with
  | zero =>
      intro fuel iter size buff hpre herr hlt hfuel
      obtain ⟨f, rfl⟩ : ∃ f, fuel = f + 1 := ⟨fuel - 1, by omega⟩
      have hsz : size < d := by omega
      have he := herr (d - size) (by omega)
      rw [Nat.add_zero] at he
      simp [digestLoop, hsz, he]
  | succ t ih =>
      intro fuel iter size buff hpre herr hlt hfuel
      obtain ⟨f, rfl⟩ : ∃ f, fuel = f + 1 := ⟨fuel - 1, by omega⟩
      have hsz : size < d := by omega
      obtain ⟨b, hb, hb1⟩ := hpre 0 (d - size) (by omega) (by omega)
      rw [Nat.add_zero] at hb
      have hrec := ih f (iter + 1) (size + b.length) (buff ++ b)
        (fun i k hi hk => by
          have hq := hpre (i + 1) k (by omega) hk
          have hx : iter + (i + 1) = iter + 1 + i := by omega
          rw [hx] at hq
          exact hq)
        (fun k hk => by
          have hq := herr k hk
          have hx : iter + (t + 1) = iter + 1 + t := by omega
          rw [hx] at hq
          exact hq)
        (by omega) (by omega)
      simp only [digestLoop, if_pos hsz, hb]
      exact hrec

/-- Events of the read loop are never transfers. -/
theorem digestLoop_no_sendfile (readFn : Nat → Nat → ReadResult) (d : Nat)
    (fuel iter size : Nat) (buff : List Byte) (n : Nat) :
    Ev.sendfileEv n ∉ (digestLoop readFn d fuel iter size buff).2 := by
  intro hmem
  obtain ⟨k, hk⟩ := digestLoop_reads_only readFn d fuel iter size buff _ hmem
  simp at hk

/-- Claim C3: when each read on the session descriptor returns between 1
and the requested number of bytes, `HashDescriptor.digest` finishes and
returns a byte sequence of length exactly `digestsize`, with the loop
requesting only the remaining bytes each iteration. -/
theorem digest_returns_digest_size_bytes (readFn : Nat → Nat → ReadResult)
    (d : Nat) (f : FileState) (sz fuel : Nat)
    (hgood : ∀ i k, 0 < k →
      ∃ b, readFn i k = ReadResult.ok b ∧ 1 ≤ b.length ∧ b.length ≤ k)
    (hfuel : d ≤ fuel) :
    ∃ r tr, digestRun readFn d f sz fuel
        = (LoopOutcome.done r, ⟨0, f.content⟩, tr) ∧ r.length = d := by
  obtain ⟨r, tr, heq, hrlen, _⟩ :=
    digestLoop_good readFn d hgood fuel 0 0 [] rfl (Nat.zero_le d) (by omega)
  exact ⟨r, Ev.sendfileEv sz :: Ev.lseekEv :: tr, by simp [digestRun, heq], hrlen⟩

/-- Witness for C3 at a concrete input. -/
theorem digest_returns_digest_size_bytes_witness :
    ∃ r tr, digestRun fullRead 4 ⟨0, [1, 2, 3]⟩ 3 4
        = (LoopOutcome.done r, ⟨0, [1, 2, 3]⟩, tr) ∧ r.length = 4 :=
  digest_returns_digest_size_bytes fullRead 4 ⟨0, [1, 2, 3]⟩ 3 4
    (fun _ k hk => ⟨List.replicate k 7, rfl, by simpa using hk, by simp⟩)
    (le_refl 4)

/-- Claim C4: `HashDescriptor.digest` rewinds the input descriptor to
offset 0 (the `os.lseek` is the event right after the transfer, before any
digest read), so the final input position is 0 and a second call on the
same descriptor computes from the start and yields the same result. -/
theorem digest_restores_input_position (readFn : Nat → Nat → ReadResult)
    (d : Nat) (f : FileState) (sz fuel : Nat) :
    (digestRun readFn d f sz fuel).2.1.pos = 0
      ∧ (digestRun readFn d f sz fuel).2.2[1]? = some Ev.lseekEv
      ∧ (f.pos = 0 →
          digestRun readFn d (digestRun readFn d f sz fuel).2.1 sz fuel
            = digestRun readFn d f sz fuel) := by
  refine ⟨rfl, by simp [digestRun], fun h0 => ?_⟩
  obtain ⟨pos, content⟩ := f
  simp only [FileState.pos] at h0
  subst h0
  rfl

/-- Witness for C4 at a concrete input. -/
theorem digest_restores_input_position_witness :
    (digestRun fullRead 4 ⟨0, [1, 2, 3]⟩ 3 4).2.1.pos = 0
      ∧ digestRun fullRead 4 (digestRun fullRead 4 ⟨0, [1, 2, 3]⟩ 3 4).2.1 3 4
          = digestRun fullRead 4 ⟨0, [1, 2, 3]⟩ 3 4 :=
  ⟨(digest_restores_input_position fullRead 4 ⟨0, [1, 2, 3]⟩ 3 4).1,
   (digest_restores_input_position fullRead 4 ⟨0, [1, 2, 3]⟩ 3 4).2.2 rfl⟩

/-- Claim C9: within one `HashDescriptor.digest` call, the data transfer
(the `os.sendfile` event) precedes every digest read in the trace. -/
theorem transfer_completes_before_digest_reads
    (readFn : Nat → Nat → ReadResult) (d : Nat) (f : FileState)
    (sz fuel i j n m : Nat)
    (hi : (digestRun readFn d f sz fuel).2.2[i]? = some (Ev.sendfileEv n))
    (hj : (digestRun readFn d f sz fuel).2.2[j]? = some (Ev.readEv m)) :
    i < j := by
  have hshape : (digestRun readFn d f sz fuel).2.2
      = Ev.sendfileEv sz :: Ev.lseekEv :: (digestLoop readFn d fuel 0 0 []).2 :=
    rfl
  rw [hshape] at hi hj
  rcases i with _ | _ | i
  · rcases j with _ | j
    · simp at hj
    · exact Nat.succ_pos j
  · simp at hi
  · exfalso
    have hmem : Ev.sendfileEv n ∈ (digestLoop readFn d fuel 0 0 []).2 := by
      simp only [List.getElem?_cons_succ] at hi
      exact List.getElem?_mem hi
    exact digestLoop_no_sendfile readFn d fuel 0 0 [] n hmem

/-- Witness for C9 at a concrete input. -/
theorem transfer_completes_before_digest_reads_witness :
    (digestRun fullRead 4 ⟨0, [1, 2, 3]⟩ 3 4).2.2[0]? = some (Ev.sendfileEv 3)
      ∧ (digestRun fullRead 4 ⟨0, [1, 2, 3]⟩ 3 4).2.2[2]? = some (Ev.readEv 4)
      ∧ (0 : Nat) < 2 :=
  ⟨by decide, by decide,
   transfer_completes_before_digest_reads fullRead 4 ⟨0, [1, 2, 3]⟩ 3 4 0 2 3 4
     (by decide) (by decide)⟩

/-- Claim C10: with reads delivering at least 1 and at most the requested
number of bytes, fuel `d` suffices (at most `d` iterations, hence at most
`d` reads issued); with reads returning zero bytes the loop makes no
progress and is still spinning after any number of iterations. -/
theorem digest_loop_termination_bound (d : Nat)
    (readFn zr : Nat → Nat → ReadResult) (fuel iter : Nat)
    (hgood : ∀ i k, 0 < k →
      ∃ b, readFn i k = ReadResult.ok b ∧ 1 ≤ b.length ∧ b.length ≤ k)
    (hzero : ∀ i k, zr i k = ReadResult.ok []) (hd : 0 < d) :
    (∃ r tr, digestLoop readFn d d 0 0 [] = (LoopOutcome.done r, tr)
        ∧ tr.length ≤ d)
      ∧ (digestLoop zr d fuel iter 0 []).1 = LoopOutcome.spinning := by
  constructor
  · obtain ⟨r, tr, heq, _, htr⟩ :=
      digestLoop_good readFn d hgood d 0 0 [] rfl (Nat.zero_le d) (by omega)
    exact ⟨r, tr, heq, htr⟩
  · exact digestLoop_zero_spins zr hzero d hd fuel iter

/-- Witness for C10 at a concrete input. -/
theorem digest_loop_termination_bound_witness :
    (∃ r tr, digestLoop fullRead 2 2 0 0 [] = (LoopOutcome.done r, tr)
        ∧ tr.length ≤ 2)
      ∧ (digestLoop zeroRead 2 5 0 0 []).1 = LoopOutcome.spinning :=
  digest_loop_termination_bound 2 fullRead zeroRead 5 0
    (fun _ k hk => ⟨List.replicate k 7, rfl, by simpa using hk, by simp⟩)
    (fun _ _ => rfl) (by decide)

/-- Claim C2 counterexample: with reads that always return end-of-stream
(zero bytes) and digest size 1, after 100 iterations the loop has issued
100 reads and is still running — no failure is raised; the call loops
instead of failing. -/
theorem digest_eof_no_failure_counterexample :
    (digestLoop zeroRead 1 100 0 0 []).1 = LoopOutcome.spinning
      ∧ (digestLoop zeroRead 1 100 0 0 []).2.length = 100 := by
  constructor
  · decide
  · decide

/-- Claim C2 (amended): an OS error from any digest read propagates out of
the loop as a failure — from any loop state, at any iteration, after any
partial accumulation (first conjunct), and across a whole run whose first
`t` reads each delivered a byte before the read at iteration `t` errored
(second conjunct) — but a read returning end-of-stream (zero bytes) before
`digestsize` bytes are accumulated does not fail: the loop keeps
re-issuing reads without progress, for every iteration bound. -/
theorem digest_read_error_propagates_eof_spins (d n t fuel fuel2 iter2 : Nat)
    (readFn zr : Nat → Nat → ReadResult)
    (hpre : ∀ i k, i < t → 0 < k →
      ∃ b, readFn i k = ReadResult.ok b ∧ b.length = 1)
    (herr : ∀ k, 0 < k → readFn t k = ReadResult.err n)
    (ht : t < d) (hfuel : t < fuel)
    (hzero : ∀ i k, zr i k = ReadResult.ok []) :
    (∀ fz iter size buff, size < d →
        readFn iter (d - size) = ReadResult.err n →
        (digestLoop readFn d (fz + 1) iter size buff).1 = LoopOutcome.raised n)
      ∧ (digestLoop readFn d fuel 0 0 []).1 = LoopOutcome.raised n
      ∧ (digestLoop zr d fuel2 iter2 0 []).1 = LoopOutcome.spinning := by
  refine ⟨fun fz iter size buff hsz herrHere => ?_, ?_, ?_⟩
  · simp [digestLoop, hsz, herrHere]
  · exact digestLoop_err_reached readFn d n t fuel 0 0 []
      (fun i k hi hk => by simpa using hpre i k hi hk)
      (fun k hk => by simpa using herr k hk)
      (by omega) hfuel
  · exact digestLoop_zero_spins zr hzero d (by omega) fuel2 iter2

/-- Witness for the amended C2: a run whose first two reads deliver one
byte each (partial accumulation) and whose third read errors raises that
error from the start of the loop; the same erroring oracle also raises
when the loop is entered mid-state; the all-zero-read oracle spins. -/
theorem digest_read_error_propagates_eof_spins_witness :
    (digestLoop oneByteThenErr 3 3 0 0 []).1 = LoopOutcome.raised 5
      ∧ (digestLoop oneByteThenErr 3 1 5 2 [7, 7]).1 = LoopOutcome.raised 5
      ∧ (digestLoop zeroRead 3 7 0 0 []).1 = LoopOutcome.spinning :=
  ⟨(digest_read_error_propagates_eof_spins 3 5 2 3 7 0 oneByteThenErr zeroRead
      (fun i k hi _ => ⟨[7], by simp [oneByteThenErr, hi], rfl⟩)
      (fun k _ => by simp [oneByteThenErr]) (by decide) (by decide)
      (fun _ _ => rfl)).2.1,
   (digest_read_error_propagates_eof_spins 3 5 2 3 7 0 oneByteThenErr zeroRead
      (fun i k hi _ => ⟨[7], by simp [oneByteThenErr, hi], rfl⟩)
      (fun k _ => by simp [oneByteThenErr]) (by decide) (by decide)
      (fun _ _ => rfl)).1 0 5 2 [7, 7] (by decide) (by decide),
   (digest_read_error_propagates_eof_spins 3 5 2 3 7 0 oneByteThenErr zeroRead
      (fun i k hi _ => ⟨[7], by simp [oneByteThenErr, hi], rfl⟩)
      (fun k _ => by simp [oneByteThenErr]) (by decide) (by decide)
      (fun _ _ => rfl)).2.2⟩

/-- Claim C5: whenever `Hash.__init__` fails — at the bind step or at the
keying step of a keyed class — the socket-close event precedes the raise
event in its trace, and no close happens before that point: no half-open
socket survives a failed construction. -/
theorem init_failure_closes_socket_before_raise (c : AlgClass)
    (os : OsOracle) (n : Nat) (tr : List Ev)
    (h : hashInit c os = (tr, Except.error n)) :
    ∃ pre, tr = pre ++ [Ev.sockClose, Ev.raiseEv n] ∧ Ev.sockClose ∉ pre := by
  unfold hashInit at h
  split at h
  · obtain ⟨rfl, rfl⟩ : _ ∧ os.bindErrno = n := by
      simpa [eq_comm] using h
    exact ⟨[Ev.sockCreate, Ev.bindCall], by simp, by simp⟩
  · split at h
    · split at h
      · obtain ⟨rfl, rfl⟩ : _ ∧ os.setkeyErrno = n := by
          simpa [eq_comm] using h
        exact ⟨[Ev.sockCreate, Ev.bindCall, Ev.setkeyCall (prepKey c)],
          by simp, by simp⟩
      · simp at h
    · simp at h

/-- Witness for C5 at a concrete failing bind. -/
theorem init_failure_closes_socket_before_raise_witness :
    ∃ pre, ([Ev.sockCreate, Ev.bindCall, Ev.sockClose, Ev.raiseEv 13] : List Ev)
        = pre ++ [Ev.sockClose, Ev.raiseEv 13] ∧ Ev.sockClose ∉ pre :=
  init_failure_closes_socket_before_raise HashMD5 ⟨-1, 13, 0, 0, 0, 0⟩ 13
    [Ev.sockCreate, Ev.bindCall, Ev.sockClose, Ev.raiseEv 13]
    (by simp [hashInit])

/-- Claim C6: a name absent from the registry makes `Hash.instance` fail
with the unknown-algorithm error (`KeyError` on the dictionary lookup) and
its trace is empty: no socket operation happens before the failure. -/
theorem unknown_algorithm_no_socket_ops (name : String) (os : OsOracle)
    (h : resolve name = none) :
    instanceRun name os = ([], Except.error InstErr.unknownAlgorithm) := by
  simp [instanceRun, h]

/-- Witness for C6 at a concrete unregistered name. -/
theorem unknown_algorithm_no_socket_ops_witness :
    resolve "sha512" = none
      ∧ instanceRun "sha512" okOs = ([], Except.error InstErr.unknownAlgorithm) :=
  ⟨by decide, unknown_algorithm_no_socket_ops "sha512" okOs (by decide)⟩

/-- Claim C7: `HashCRC32C.prepare` sets an all-0xFF key whose length equals
the crc32c digest size (4); the key-set event is part of the construction
trace, which contains no accept (so the key is applied before any session
is derived); and every registered algorithm has a positive digest size. -/
theorem crc32c_key_all_ff_and_digest_sizes_positive :
    (∀ os : OsOracle, 0 ≤ os.bindRes → 0 ≤ os.setkeyRes →
        Ev.setkeyCall (List.replicate 4 0xff) ∈ (hashInit HashCRC32C os).1
          ∧ Ev.acceptCall ∉ (hashInit HashCRC32C os).1)
      ∧ prepKey HashCRC32C = List.replicate HashCRC32C.ALG_BYTE 0xff
      ∧ (prepKey HashCRC32C).length = HashCRC32C.ALG_BYTE
      ∧ HashCRC32C.ALG_BYTE = 4
      ∧ (∀ p ∈ algorithm, 0 < p.2.ALG_BYTE) := by
  refine ⟨fun os h1 h2 => ?_, rfl, by decide, by decide, by decide⟩
  have h1n : ¬ os.bindRes < 0 := by omega
  have h2n : ¬ os.setkeyRes < 0 := by omega
  constructor
  · simp [hashInit, h1n, h2n, HashCRC32C, prepKey]
  · simp [hashInit, h1n, h2n, HashCRC32C]

/-- Witness for C7 at a concrete all-success oracle. -/
theorem crc32c_key_all_ff_and_digest_sizes_positive_witness :
    Ev.setkeyCall (List.replicate 4 0xff) ∈ (hashInit HashCRC32C okOs).1
      ∧ Ev.acceptCall ∉ (hashInit HashCRC32C okOs).1 :=
  crc32c_key_all_ff_and_digest_sizes_positive.1 okOs (by decide) (by decide)

/-- Claim C8: when the accept call of `Hash.open` yields a valid
descriptor, every exit of the with-block that actually exits — normal
fall-through, an exception raised by the body, or an early exit of the
caller's enclosing scope — runs the `finally` and closes the descriptor,
which is the last event of the scope's trace. -/
theorem session_descriptor_closed_on_every_exit (os : OsOracle)
    (body : Nat → List Ev × BodyOutcome)
    (hacc : 0 ≤ os.acceptRes)
    (hnh : (body os.acceptRes.toNat).2 ≠ BodyOutcome.hung) :
    (withOpen os body).1
        = Ev.acceptCall :: (body os.acceptRes.toNat).1
            ++ [Ev.fdClose os.acceptRes.toNat]
      ∧ Ev.fdClose os.acceptRes.toNat ∈ (withOpen os body).1 := by
  have hn : ¬ os.acceptRes < 0 := by omega
  have h1 : (withOpen os body).1
      = Ev.acceptCall :: (body os.acceptRes.toNat).1
          ++ [Ev.fdClose os.acceptRes.toNat] := by
    cases hb : (body os.acceptRes.toNat).2 with
    | hung => exact absurd hb hnh
    | normal => simp [withOpen, hn, hb]
    | raised k => simp [withOpen, hn, hb]
    | earlyExit => simp [withOpen, hn, hb]
  exact ⟨h1, by simp [h1]⟩

/-- Witness for C8: the descriptor-close event is present for a normal
body, a raising body, and an early-exiting body. -/
theorem session_descriptor_closed_on_every_exit_witness :
    Ev.fdClose 3 ∈ (withOpen okOs (fun _ => ([], BodyOutcome.normal))).1
      ∧ Ev.fdClose 3
          ∈ (withOpen okOs (fun _ => ([Ev.raiseEv 5], BodyOutcome.raised 5))).1
      ∧ Ev.fdClose 3 ∈ (withOpen okOs (fun _ => ([], BodyOutcome.earlyExit))).1 :=
  ⟨(session_descriptor_closed_on_every_exit okOs
      (fun _ => ([], BodyOutcome.normal)) (by decide) (by decide)).2,
   (session_descriptor_closed_on_every_exit okOs
      (fun _ => ([Ev.raiseEv 5], BodyOutcome.raised 5)) (by decide) (by decide)).2,
   (session_descriptor_closed_on_every_exit okOs
      (fun _ => ([], BodyOutcome.earlyExit)) (by decide) (by decide)).2⟩

/-- A construction that succeeds (bind accepted and, for a keyed class, the
key accepted) yields `ok` with a trace free of accept events. -/
theorem hashInit_ok (c : AlgClass) (os : OsOracle)
    (hbind : 0 ≤ os.bindRes) (hkey : c.keyed = true → 0 ≤ os.setkeyRes) :
    ∃ itr, hashInit c os = (itr, Except.ok ()) ∧ Ev.acceptCall ∉ itr := by
  have h1 : ¬ os.bindRes < 0 := by omega
  by_cases hk : c.keyed = true
  · have h2 : ¬ os.setkeyRes < 0 := by
      have := hkey hk
      omega
    refine ⟨[Ev.sockCreate, Ev.bindCall, Ev.setkeyCall (prepKey c)],
      ?_, by simp⟩
    simp [hashInit, h1, hk, h2]
  · refine ⟨[Ev.sockCreate, Ev.bindCall], ?_, by simp⟩
    simp [hashInit, h1, hk]

/-- The trace of one digest call contains no accept event and exactly one
transfer event. -/
theorem digestRun_trace_facts (readFn : Nat → Nat → ReadResult) (d : Nat)
    (f : FileState) (sz fuel : Nat) :
    Ev.acceptCall ∉ (digestRun readFn d f sz fuel).2.2
      ∧ (digestRun readFn d f sz fuel).2.2.countP (fun e => isSendfileEv e) = 1 := by
  have hshape : (digestRun readFn d f sz fuel).2.2
      = Ev.sendfileEv sz :: Ev.lseekEv :: (digestLoop readFn d fuel 0 0 []).2 :=
    rfl
  have hloop : ∀ e ∈ (digestLoop readFn d fuel 0 0 []).2, ∃ n, e = Ev.readEv n :=
    fun e he => digestLoop_reads_only readFn d fuel 0 0 [] e he
  constructor
  · rw [hshape]
    simp only [List.mem_cons, not_or]
    refine ⟨by simp, by simp, fun hmem => ?_⟩
    obtain ⟨k, hk⟩ := hloop _ hmem
    simp at hk
  · rw [hshape]
    have h0 : (digestLoop readFn d fuel 0 0 []).2.countP (fun e => isSendfileEv e) = 0 := by
      rw [List.countP_eq_zero]
      intro e he
      obtain ⟨k, rfl⟩ := hloop e he
      simp [isSendfileEv]
    rw [List.countP_cons, List.countP_cons, h0]
    simp [isSendfileEv]

/-- When every file's digest completes, the per-file loop exits normally,
its trace has no accept event, and it has exactly one transfer per file. -/
theorem fileLoop_done (d : Nat) :
    ∀ jobs : List FileJob, (∀ j ∈ jobs, jobDone d j = true) →
      (fileLoop d jobs).2 = BodyOutcome.normal
        ∧ (fileLoop d jobs).1.count Ev.acceptCall = 0
        ∧ (fileLoop d jobs).1.countP (fun e => isSendfileEv e) = jobs.length := by
  intro jobs
  induction jobs with
  | nil => intro h; exact ⟨rfl, rfl, rfl⟩
  | cons j rest ih =>
      intro h
      have hj : jobDone d j = true := h j (List.mem_cons_self j rest)
      obtain ⟨hnorm, hcnt, hcntP⟩ :=
        ih (fun x hx => h x (List.mem_cons_of_mem j hx))
      obtain ⟨hnoacc, honesf⟩ :=
        digestRun_trace_facts j.readFn d j.file j.file.content.length j.fuel
      rcases hr : (digestRun j.readFn d j.file j.file.content.length j.fuel).1
        with r | n | _
      · refine ⟨?_, ?_, ?_⟩
        · simp [fileLoop, hr, hnorm]
        · simp only [fileLoop, hr]
          rw [List.count_append, List.count_cons]
          rw [List.count_eq_zero.mpr hnoacc, hcnt]
          simp
        · simp only [fileLoop, hr]
          rw [List.countP_append, List.countP_cons, honesf, hcntP]
          simp [isSendfileEv]
          omega
      · simp [jobDone, hr] at hj
      · simp [jobDone, hr] at hj

/-- Shape of a fully successful `main` run: construction trace, one accept,
the per-file body, one final descriptor close; outcome ok. -/
theorem mainRun_success_shape (name : String) (c : AlgClass) (os : OsOracle)
    (jobs : List FileJob) (itr : List Ev)
    (hres : resolve name = some c)
    (hinit : hashInit c os = (itr, Except.ok ()))
    (hfd : ¬ os.acceptRes < 0)
    (hnorm : (fileLoop c.ALG_BYTE jobs).2 = BodyOutcome.normal) :
    mainRun name os jobs
      = (itr ++ Ev.acceptCall :: (fileLoop c.ALG_BYTE jobs).1
            ++ [Ev.fdClose os.acceptRes.toNat],
         MainOutcome.ok) := by
  unfold mainRun instanceRun withOpen
  rw [hres]
  simp only [hinit, hnorm, if_neg hfd]
  simp

/-- Claim C1 counterexample: in a successful two-file run of `main` the
trace holds exactly one accept event and one descriptor-close event —
there is no fresh accept-derived session per file and no session destroyed
between the files, contradicting the claim's per-file session lifecycle. -/
theorem session_per_file_counterexample :
    (mainRun "md5" okOs [jobA, jobB]).2 = MainOutcome.ok
      ∧ (mainRun "md5" okOs [jobA, jobB]).1.count Ev.acceptCall = 1
      ∧ (mainRun "md5" okOs [jobA, jobB]).1.count (Ev.fdClose 3) = 1
      ∧ [jobA, jobB].length = 2
      ∧ (mainRun "md5" okOs [jobA, jobB]).1.count Ev.acceptCall
          ≠ [jobA, jobB].length := by
  refine ⟨by decide, by decide, by decide, rfl, by decide⟩

/-- Claim C1 (amended): for every successful multi-file run under one
algorithm, `main` reuses both the single bound socket and a single
`DigestSession`: the trace is the construction events, then exactly one
accept, then the per-file body holding one transfer per file and no
accept, then the one descriptor close as the final event. -/
theorem single_session_reused_across_files (name : String) (c : AlgClass)
    (os : OsOracle) (jobs : List FileJob)
    (hres : resolve name = some c)
    (hbind : 0 ≤ os.bindRes)
    (hkey : c.keyed = true → 0 ≤ os.setkeyRes)
    (hacc : 0 ≤ os.acceptRes)
    (hdone : ∀ j ∈ jobs, jobDone c.ALG_BYTE j = true) :
    ∃ itr btr, (mainRun name os jobs).1
        = itr ++ Ev.acceptCall :: btr ++ [Ev.fdClose os.acceptRes.toNat]
      ∧ Ev.acceptCall ∉ itr
      ∧ btr.count Ev.acceptCall = 0
      ∧ btr.countP (fun e => isSendfileEv e) = jobs.length
      ∧ (mainRun name os jobs).2 = MainOutcome.ok := by
  obtain ⟨itr, hinit, hitr⟩ := hashInit_ok c os hbind hkey
  obtain ⟨hnorm, hcnt, hcntP⟩ := fileLoop_done c.ALG_BYTE jobs hdone
  have hfd : ¬ os.acceptRes < 0 := by omega
  have hmain := mainRun_success_shape name c os jobs itr hres hinit hfd hnorm
  exact ⟨itr, (fileLoop c.ALG_BYTE jobs).1,
    by rw [hmain], hitr, hcnt, hcntP, by rw [hmain]⟩

/-- Witness for the amended C1 at a concrete two-file run. -/
theorem single_session_reused_across_files_witness :
    ∃ itr btr, (mainRun "md5" okOs [jobA, jobB]).1
        = itr ++ Ev.acceptCall :: btr ++ [Ev.fdClose 3]
      ∧ Ev.acceptCall ∉ itr
      ∧ btr.count Ev.acceptCall = 0
      ∧ btr.countP (fun e => isSendfileEv e) = 2
      ∧ (mainRun "md5" okOs [jobA, jobB]).2 = MainOutcome.ok :=
  single_session_reused_across_files "md5" HashMD5 okOs [jobA, jobB]
    (by decide) (by decide) (by decide) (by decide) (by decide)

end Lehash
